import Mathlib

/-!
# Build script compilation (`pkg/build/script/script.go`)

A shallow embedding of `Build.Write` and `Build.WriteBuild`, the two functions
that turn a parsed build manifest into an ordered list of instructions on a
`buildfile.Buildfile`.

Go strings are modelled by Lean `String`s. The only string operation the code
performs is `strings.Split(env, "=")`; the separator is the single ASCII byte
`=`, which never occurs inside a multi-byte UTF-8 sequence, so splitting the
character sequence and splitting the byte sequence agree.
-/

namespace strings

/-- Go `strings.Split(s, sep)` for a one-character separator, on the character
sequence of `s`: the pieces between consecutive occurrences of `sep`. The result
always has one more piece than there are occurrences of `sep`; in particular the
empty string splits into one empty piece. -/
def splitChars (sep : Char) : List Char → List (List Char)
  | [] => [[]]
  | c :: cs =>
    if c = sep then [] :: splitChars sep cs
    else
      match splitChars sep cs with
      | [] => [[c]]
      | p :: ps => (c :: p) :: ps

/-- Go `strings.Split(s, sep)` with `sep` a one-character string. -/
def Split (s : String) (sep : Char) : List String :=
  (splitChars sep s.data).map String.mk

end strings

namespace buildfile

/-- One instruction recorded by the sink. -/
inductive Instr where
  | WriteEnv (key value : String)
  | WriteCmd (command : String)
  deriving DecidableEq, Repr

/-- Modelled from the spec: package `buildfile` is imported by `script.go` but is
not part of the sources. A `Buildfile` is the sink: a single ordered stream of
instructions, to which `WriteEnv` and `WriteCmd` each append one instruction,
preserving call order. -/
abbrev Buildfile := List Instr

/-- Modelled from the spec: `WriteEnv(key, value)` records one environment
binding at the end of the stream. -/
def Buildfile.WriteEnv (f : Buildfile) (key value : String) : Buildfile :=
  f ++ [Instr.WriteEnv key value]

/-- Modelled from the spec: `WriteCmd(command)` records one command at the end of
the stream. -/
def Buildfile.WriteCmd (f : Buildfile) (command : String) : Buildfile :=
  f ++ [Instr.WriteCmd command]

end buildfile

namespace script

open buildfile

/-- The `Context` interface: read-only accessors describing one build run. -/
structure Context where
  Host : String
  Owner : String
  Name : String
  Branch : String
  Hash : String
  Status : String
  Message : String
  Author : String
  Gravatar : String
  Duration : Int
  HumanDuration : String

/-- Modelled from the spec: the concrete type `publish.Publish` lives in a
package outside the sources; it is represented by the `Publish` interface of
`script.go`, whose only capability `Write(f)` receives the sink and may do
anything to it. -/
structure Publish where
  Write : Buildfile → Buildfile

/-- Modelled from the spec: the concrete type `deployment.Deploy` lives in a
package outside the sources; it is represented by the `Deployment` interface of
`script.go`, whose only capability `Write(f)` receives the sink and may do
anything to it. -/
structure Deployment where
  Write : Buildfile → Buildfile

/-- Modelled from the spec: the concrete type `notification.Notification` lives
in a package outside the sources; it is represented by the `Notification`
interface of `script.go`, whose only capability `Set(c)` consumes a run context
and acts on the outside world (here: an outbox of messages); it never receives
the sink. -/
structure Notification where
  Set : Context → List String → List String

/-- The `Build` struct: configuration details for building, testing and
deploying code. -/
structure Build where
  Image : String
  Name : String
  Script : List String
  Env : List String
  Services : List String
  Deploy : Option Deployment
  Publish : Option Publish
  Notifications : Option Notification

/-- One iteration of the environment loop of `WriteBuild`: split the entry on
`=`, `continue` unless there are exactly two parts, else `WriteEnv` them. -/
def writeEnvEntry (f : Buildfile) (env : String) : Buildfile :=
  let parts := strings.Split env '='
  if parts.length ≠ 2 then f
  else f.WriteEnv (parts.getD 0 "") (parts.getD 1 "")

/-- `Build.WriteBuild`: adds only the build steps to the build script, omitting
publish and deploy steps. -/
def Build.WriteBuild (b : Build) (f : Buildfile) : Buildfile :=
  -- append environment variables
  let f := b.Env.foldl writeEnvEntry f
  -- append build commands
  b.Script.foldl (fun f cmd => f.WriteCmd cmd) f

/-- `Build.Write`: adds all the steps to the build script, including build
commands, deploy and publish commands. -/
def Build.Write (b : Build) (f : Buildfile) : Buildfile :=
  -- append build commands
  let f := b.WriteBuild f
  -- write publish commands
  let f := match b.Publish with
    | some p => p.Write f
    | none => f
  -- write deployment commands
  match b.Deploy with
  | some d => d.Write f
  | none => f

end script

namespace script

open buildfile

/-- The text of an env entry before its first `=` (the whole entry when it has
none): the key, in the words of the specification. -/
def textBeforeFirstEq (env : String) : String :=
  String.mk (env.data.takeWhile (fun c => c != '='))

/-- The text of an env entry after its first `=` (empty when it has none): the
value, in the words of the specification. -/
def textAfterFirstEq (env : String) : String :=
  String.mk ((env.data.dropWhile (fun c => c != '=')).drop 1)

/-- The number of `=` characters in an env entry. -/
def countEq (env : String) : Nat :=
  env.data.count '='

/-- The commands recorded in a sink, in order. -/
def commandsOf (f : Buildfile) : List String :=
  f.filterMap (fun i => match i with
    | Instr.WriteCmd c => some c
    | Instr.WriteEnv _ _ => none)

/-- The environment bindings recorded in a sink, in order. -/
def bindingsOf (f : Buildfile) : List (String × String) :=
  f.filterMap (fun i => match i with
    | Instr.WriteEnv k v => some (k, v)
    | Instr.WriteCmd _ => none)

/-- Strict prefix: a prefix that is not the whole list. -/
def StrictPrefix (l₁ l₂ : Buildfile) : Prop :=
  l₁ <+: l₂ ∧ l₁ ≠ l₂

/-- A manifest with two well-formed env entries and one command. -/
def exampleBuild : Build :=
  { Image := "golang", Name := "", Script := ["make build"], Env := ["A=1", "B=2"],
    Services := [], Deploy := none, Publish := none, Notifications := none }

/-- A publish extension appending one command. -/
def examplePublish : Publish :=
  { Write := fun f => f.WriteCmd "docker push" }

/-- A deploy extension appending one binding and one command. -/
def exampleDeploy : Deployment :=
  { Write := fun f => (f.WriteEnv "TARGET" "prod").WriteCmd "git push deploy" }

/-- A notification extension. -/
def exampleNotification : Notification :=
  { Set := fun c outbox => outbox ++ [c.Status] }

/-- An extension that writes nothing. -/
def silentPublish : Publish :=
  { Write := fun f => f }

/-- An extension that writes nothing. -/
def silentDeploy : Deployment :=
  { Write := fun f => f }

/-- A Go `error` value, identified by its message; the `nil` error is `none` of
`Option Error`. -/
structure Error where
  Message : String
  deriving DecidableEq, Repr

/-- A Go `[]byte`, one number per byte. -/
abbrev Bytes := List Nat

/-- The zero value `Build{}`. -/
def Build.zero : Build :=
  { Image := "", Name := "", Script := [], Env := [], Services := [],
    Deploy := none, Publish := none, Notifications := none }

/-- Modelled from the spec: the decoder `goyaml.Unmarshal` is a library that is
not part of the sources. A manifest is a structured document with the top-level
keys `image`, `name`, `script`, `env`, `services` (a string or a sequence of
strings) and `deploy`, `publish`, `notify` (each an optional nested document
whose shape is owned by its extension, held here as the extension it denotes);
every key may be absent, and keys outside this list are `unknown`. -/
structure Document where
  image : Option String
  name : Option String
  script : Option (List String)
  env : Option (List String)
  services : Option (List String)
  deploy : Option Deployment
  publish : Option Publish
  notify : Option Notification
  unknown : List String

/-- Modelled from the spec: `goyaml.Unmarshal(data, &build)`, the decoder that is
not part of the sources. The grammar of the configuration format is the parameter
`format`, telling which structured document the bytes denote, if any. Malformed
bytes give an error and leave the manifest as it was; otherwise every key present
in the document is stored in its field, unknown keys are ignored, and there is no
error. -/
def Unmarshal (format : Bytes → Option Document) (data : Bytes) (build : Build) :
    Build × Option Error :=
  match format data with
  | none => (build, some { Message := "YAML error" })
  | some doc =>
    ({ Image := doc.image.getD build.Image,
       Name := doc.name.getD build.Name,
       Script := doc.script.getD build.Script,
       Env := doc.env.getD build.Env,
       Services := doc.services.getD build.Services,
       Deploy := doc.deploy.orElse (fun _ => build.Deploy),
       Publish := doc.publish.orElse (fun _ => build.Publish),
       Notifications := doc.notify.orElse (fun _ => build.Notifications) }, none)

/-- `ParseBuild`. The decoder `goyaml.Unmarshal(data, &build)` is a library
outside the repository and is the parameter `unmarshal`: it receives the bytes
and the value behind the pointer, and gives back the value it leaves there
together with its error. The result is the pair `(*Build, error)`. -/
def ParseBuild (unmarshal : Bytes → Build → Build × Option Error) (data : Bytes) :
    Option Build × Option Error :=
  let build := Build.zero
  -- parse the build configuration file
  let (build, err) := unmarshal data build
  (some build, err)

/-- `ParseBuildFile`. The read `ioutil.ReadFile(filename)` is a library call on
the file system and is the parameter `readFile`, giving back the pair
`([]byte, error)`. -/
def ParseBuildFile (readFile : String → Bytes × Option Error)
    (unmarshal : Bytes → Build → Build × Option Error) (filename : String) :
    Option Build × Option Error :=
  let (data, err) := readFile filename
  match err with
  | some e => (none, some e)
  | none => ParseBuild unmarshal data

/-- The bytes of a manifest document with an image and a one-command script. -/
def exampleDocument : Bytes :=
  "image: golang\nscript: [echo hi]\n".data.map Char.toNat

/-- The structure denoted by the example document. -/
def exampleManifest : Document :=
  { image := some "golang", name := none, script := some ["echo hi"], env := none,
    services := none, deploy := none, publish := none, notify := none, unknown := [] }

/-- A grammar that knows the example document and rejects everything else. -/
def exampleFormat (data : Bytes) : Option Document :=
  if data = exampleDocument then some exampleManifest else none

/-- The decoder under the example grammar. -/
def exampleUnmarshal (data : Bytes) (build : Build) : Build × Option Error :=
  Unmarshal exampleFormat data build

/-- A file system holding the example document under `.drone.yml` only. -/
def exampleReadFile (filename : String) : Bytes × Option Error :=
  if filename = ".drone.yml" then (exampleDocument, none)
  else ([], some { Message := "no such file or directory" })

/-- A publish extension that only appends, and appends only to an empty sink. -/
def sinkSensitivePublish : Publish :=
  { Write := fun f => if f.isEmpty then f.WriteCmd "docker push" else f }

end script

/-! ## Splitting -/

namespace strings

theorem splitChars_ne_nil (sep : Char) (s : List Char) : splitChars sep s ≠ [] := by
  cases s with
  | nil => simp [splitChars]
  | cons c cs =>
    by_cases h : c = sep
    · simp [splitChars, h]
    · cases hs : splitChars sep cs <;> simp [splitChars, h, hs]

theorem splitChars_length (sep : Char) (s : List Char) :
    (splitChars sep s).length = s.count sep + 1 := by
  induction s with
  | nil => simp [splitChars]
  | cons c cs ih =>
    by_cases h : c = sep
    · subst h
      simp [splitChars, ih]
    · have hne := splitChars_ne_nil sep cs
      cases hs : splitChars sep cs with
      | nil => exact absurd hs hne
      | cons p ps =>
        rw [hs] at ih
        simp only [splitChars, h, if_false, hs]
        rw [List.count_cons_of_ne (fun hh => h hh.symm)]
        exact ih

theorem splitChars_of_not_mem (sep : Char) (s : List Char) (h : sep ∉ s) :
    splitChars sep s = [s] := by
  induction s with
  | nil => simp [splitChars]
  | cons c cs ih =>
    have hc : c ≠ sep := fun hh => h (by simp [hh])
    have hcs : sep ∉ cs := fun hh => h (List.mem_cons_of_mem _ hh)
    simp [splitChars, hc, ih hcs]

theorem splitChars_append_sep (sep : Char) (k r : List Char) (h : sep ∉ k) :
    splitChars sep (k ++ sep :: r) = k :: splitChars sep r := by
  induction k with
  | nil => simp [splitChars]
  | cons c cs ih =>
    have hc : c ≠ sep := fun hh => h (by simp [hh])
    have hcs : sep ∉ cs := fun hh => h (List.mem_cons_of_mem _ hh)
    simp [splitChars, hc, ih hcs]

/-- A string containing the separator splits into the text before its first
occurrence, followed by the pieces of the text after it. -/
theorem splitChars_of_mem (sep : Char) (s : List Char) (h : sep ∈ s) :
    splitChars sep s =
      s.takeWhile (fun c => c != sep) ::
        splitChars sep ((s.dropWhile (fun c => c != sep)).drop 1) := by
  induction s with
  | nil => simp at h
  | cons c cs ih =>
    by_cases hc : c = sep
    · subst hc
      simp [splitChars]
    · have hcs : sep ∈ cs := by
        rcases List.mem_cons.1 h with hh | hh
        · exact absurd hh.symm hc
        · exact hh
      simp [splitChars, hc, ih hcs]

end strings

/-! ## The two loops of `WriteBuild` -/

namespace script

open buildfile

theorem Split_length (env : String) :
    (strings.Split env '=').length = countEq env + 1 := by
  simp [strings.Split, countEq, strings.splitChars_length]

/-- An entry whose number of `=` is not one is skipped. -/
theorem writeEnvEntry_skip (f : Buildfile) (env : String) (h : countEq env ≠ 1) :
    writeEnvEntry f env = f := by
  have hl : (strings.Split env '=').length ≠ 2 := by
    rw [Split_length]; omega
  simp [writeEnvEntry, hl]

/-- An entry with exactly one `=` splits into the text before and after it. -/
theorem Split_of_countEq_one (env : String) (h : countEq env = 1) :
    strings.Split env '=' = [textBeforeFirstEq env, textAfterFirstEq env] := by
  have hmem : '=' ∈ env.data := by
    apply List.count_pos_iff.1
    unfold countEq at h
    omega
  have hsplit := strings.splitChars_of_mem '=' env.data hmem
  have hrest : '=' ∉ (env.data.dropWhile (fun c => c != '=')).drop 1 := by
    intro hin
    have hlen := strings.splitChars_length '=' env.data
    rw [hsplit] at hlen
    simp only [List.length_cons, strings.splitChars_length] at hlen
    have hpos := List.count_pos_iff.2 hin
    unfold countEq at h
    omega
  rw [strings.splitChars_of_not_mem _ _ hrest] at hsplit
  simp [strings.Split, hsplit, textBeforeFirstEq, textAfterFirstEq]

/-- An entry with exactly one `=` appends one binding. -/
theorem writeEnvEntry_one (f : Buildfile) (env : String) (h : countEq env = 1) :
    writeEnvEntry f env =
      f ++ [Instr.WriteEnv (textBeforeFirstEq env) (textAfterFirstEq env)] := by
  simp [writeEnvEntry, Split_of_countEq_one env h, Buildfile.WriteEnv]

theorem writeEnvEntry_append (f : Buildfile) (env : String) :
    writeEnvEntry f env = f ++ writeEnvEntry [] env := by
  by_cases h : countEq env = 1
  · simp [writeEnvEntry_one _ env h]
  · simp [writeEnvEntry_skip _ env h]

theorem foldl_writeEnvEntry (envs : List String) (f : Buildfile) :
    envs.foldl writeEnvEntry f = f ++ envs.flatMap (writeEnvEntry []) := by
  induction envs generalizing f with
  | nil => simp
  | cons e es ih =>
    rw [List.foldl_cons, ih, writeEnvEntry_append f e]
    simp

theorem foldl_WriteCmd (cmds : List String) (f : Buildfile) :
    cmds.foldl (fun f cmd => f.WriteCmd cmd) f = f ++ cmds.map Instr.WriteCmd := by
  induction cmds generalizing f with
  | nil => simp
  | cons c cs ih =>
    rw [List.foldl_cons, ih]
    simp [Buildfile.WriteCmd]

/-- Closed form of `WriteBuild`: the sink, then the bindings of the env entries
in order, then one command per script entry in order. -/
theorem WriteBuild_eq (b : Build) (f : Buildfile) :
    b.WriteBuild f =
      f ++ b.Env.flatMap (writeEnvEntry []) ++ b.Script.map Instr.WriteCmd := by
  simp [Build.WriteBuild, foldl_writeEnvEntry, foldl_WriteCmd]

theorem commandsOf_append (f g : Buildfile) :
    commandsOf (f ++ g) = commandsOf f ++ commandsOf g := by
  simp [commandsOf]

theorem commandsOf_writeEnvEntry (env : String) :
    commandsOf (writeEnvEntry [] env) = [] := by
  by_cases h : countEq env = 1
  · simp [writeEnvEntry_one _ env h, commandsOf]
  · simp [writeEnvEntry_skip _ env h, commandsOf]

theorem commandsOf_envPhase (envs : List String) :
    commandsOf (envs.flatMap (writeEnvEntry [])) = [] := by
  induction envs with
  | nil => simp [commandsOf]
  | cons e es ih =>
    simp [commandsOf_append, commandsOf_writeEnvEntry, ih]

theorem commandsOf_map_WriteCmd (cmds : List String) :
    commandsOf (cmds.map Instr.WriteCmd) = cmds := by
  induction cmds with
  | nil => simp [commandsOf]
  | cons c cs ih =>
    simp only [commandsOf] at ih
    simp [commandsOf, ih]

end script

/-! ## Splitting the environment list around one entry -/

namespace script

open buildfile

/-- Compilation of a manifest whose env list is `pre ++ env :: post`: what the
entries before `env` yield on the sink, then what `env` alone yields, then what
the remaining entries and the script yield. -/
theorem WriteBuild_around_entry (b : Build) (pre post : List String) (env : String)
    (f : Buildfile) (hEnv : b.Env = pre ++ env :: post) :
    b.WriteBuild f =
      ({ b with Env := pre, Script := [] }).WriteBuild f ++ writeEnvEntry [] env ++
        ({ b with Env := post }).WriteBuild [] := by
  simp [WriteBuild_eq, hEnv]

/-- Full compilation is build-only compilation followed by the extensions. -/
theorem Write_eq (b : Build) (f : Buildfile) :
    b.Write f =
      (match b.Deploy with
        | some d => d.Write
        | none => id)
        ((match b.Publish with
          | some p => p.Write
          | none => id) (b.WriteBuild f)) := by
  unfold Build.Write
  cases b.Publish <;> cases b.Deploy <;> rfl

end script

/-! ## Claims -/

namespace script

open buildfile

/-- C1: build-only compilation never invokes the publish or deploy extension:
for every manifest, whatever its publish and deploy fields hold, and every sink,
`WriteBuild` yields the same sink as for the same manifest with publish and
deploy both removed. -/
theorem C1_WriteBuild_ignores_publish_deploy (b : Build) (p : Option Publish)
    (d : Option Deployment) (f : Buildfile) :
    ({ b with Publish := p, Deploy := d }).WriteBuild f =
      ({ b with Publish := none, Deploy := none }).WriteBuild f := by
  simp [WriteBuild_eq]

/-- C2: with publish and deploy both present, full compilation runs publish on
the sink left by the build steps and deploy on the sink left by publish; when the
two extensions append `ps` and `ds`, the result is the build steps, then `ps`,
then `ds`, so every instruction of `ps` sits at a smaller position than every
instruction of `ds`, whatever else the manifest holds. -/
theorem C2_publish_before_deploy (b : Build) (f : Buildfile) (p : Publish)
    (d : Deployment) (ps ds : List Instr)
    (hP : b.Publish = some p) (hD : b.Deploy = some d)
    (hp : p.Write (b.WriteBuild f) = b.WriteBuild f ++ ps)
    (hd : d.Write (b.WriteBuild f ++ ps) = b.WriteBuild f ++ ps ++ ds) :
    b.Write f = d.Write (p.Write (b.WriteBuild f)) ∧
    b.Write f = b.WriteBuild f ++ ps ++ ds ∧
    ∀ i j, i < ps.length → j < ds.length →
      (b.Write f)[(b.WriteBuild f).length + i]? = ps[i]? ∧
      (b.Write f)[(b.WriteBuild f).length + ps.length + j]? = ds[j]? ∧
      (b.WriteBuild f).length + i < (b.WriteBuild f).length + ps.length + j := by
  have h1 : b.Write f = d.Write (p.Write (b.WriteBuild f)) := by
    simp [Write_eq, hP, hD]
  have h2 : b.Write f = b.WriteBuild f ++ ps ++ ds := by
    rw [h1, hp, hd]
  refine ⟨h1, h2, ?_⟩
  intro i j hi hj
  refine ⟨?_, ?_, by omega⟩
  · rw [h2, List.append_assoc, List.getElem?_append_right (by omega)]
    simp [List.getElem?_append_left hi]
  · rw [h2, List.getElem?_append_right (by simp)]
    simp

/-- Witness for C2: the example manifest with a publish extension appending one
command and a deploy extension appending two instructions. -/
theorem C2_publish_before_deploy_witness :
    ({ exampleBuild with Publish := some examplePublish,
                         Deploy := some exampleDeploy }).Write [] =
      [Instr.WriteEnv "A" "1", Instr.WriteEnv "B" "2", Instr.WriteCmd "make build",
       Instr.WriteCmd "docker push",
       Instr.WriteEnv "TARGET" "prod", Instr.WriteCmd "git push deploy"] :=
  (C2_publish_before_deploy
    { exampleBuild with Publish := some examplePublish, Deploy := some exampleDeploy }
    [] examplePublish exampleDeploy [Instr.WriteCmd "docker push"]
    [Instr.WriteEnv "TARGET" "prod", Instr.WriteCmd "git push deploy"]
    rfl rfl (by decide) (by decide)).2.1.trans (by decide)

/-- C3: when every env entry has exactly one `=` and a non-empty key, build-only
compilation into a fresh sink yields one `WriteEnv(key, value)` per env entry in
manifest order, then one `WriteCmd` per script entry in manifest order, and
nothing else. -/
theorem C3_WriteBuild_wellformed (b : Build)
    (h : ∀ e ∈ b.Env, countEq e = 1 ∧ textBeforeFirstEq e ≠ "") :
    b.WriteBuild [] =
      b.Env.map (fun e => Instr.WriteEnv (textBeforeFirstEq e) (textAfterFirstEq e)) ++
        b.Script.map Instr.WriteCmd := by
  have key : ∀ envs : List String, (∀ e ∈ envs, countEq e = 1 ∧ textBeforeFirstEq e ≠ "") →
      envs.flatMap (writeEnvEntry []) =
        envs.map (fun e => Instr.WriteEnv (textBeforeFirstEq e) (textAfterFirstEq e)) := by
    intro envs
    induction envs with
    | nil => intro _; rfl
    | cons e es ih =>
      intro hall
      have he := (hall e (by simp)).1
      have hes := ih (fun x hx => hall x (List.mem_cons_of_mem _ hx))
      simp [writeEnvEntry_one [] e he, hes]
  simp [WriteBuild_eq, key b.Env h]

/-- Witness for C3: `env = ["A=1","B=2"]`, `script = ["make build"]` yields exactly
`WriteEnv(A,1)`, `WriteEnv(B,2)`, `WriteCmd("make build")`, in that order. -/
theorem C3_WriteBuild_wellformed_witness :
    (∀ e ∈ exampleBuild.Env, countEq e = 1 ∧ textBeforeFirstEq e ≠ "") ∧
    exampleBuild.WriteBuild [] =
      [Instr.WriteEnv "A" "1", Instr.WriteEnv "B" "2", Instr.WriteCmd "make build"] :=
  ⟨by decide, (C3_WriteBuild_wellformed exampleBuild (by decide)).trans (by decide)⟩

/-- C4, as stated, fails: the entry `A=b=c` contains an `=` and has the non-empty
key `A` before its first `=`, with `b=c` after it, yet compilation appends no
`WriteEnv` for it, since `strings.Split` yields three parts. -/
theorem C4_counterexample :
    1 ≤ countEq "A=b=c" ∧ textBeforeFirstEq "A=b=c" = "A" ∧
    textAfterFirstEq "A=b=c" = "b=c" ∧
    strings.Split "A=b=c" '=' = ["A", "b", "c"] ∧
    ({ exampleBuild with Env := ["A=b=c"], Script := [] }).WriteBuild [] = [] ∧
    Instr.WriteEnv "A" "b=c" ∉
      ({ exampleBuild with Env := ["A=b=c"], Script := [] }).WriteBuild [] := by
  decide

/-- C4, amended: the environment phase splits each env entry on every `=`. An
entry with exactly one `=` and a non-empty key appends `WriteEnv(key, value)`,
key the text before the `=` and value the text after it, in its place among the
other entries; an entry with two or more `=` appends nothing. -/
theorem C4_env_entry_split (b : Build) (pre post : List String) (env : String)
    (f : Buildfile) (hEnv : b.Env = pre ++ env :: post) :
    (countEq env = 1 → textBeforeFirstEq env ≠ "" →
      b.WriteBuild f =
        ({ b with Env := pre, Script := [] }).WriteBuild f ++
          [Instr.WriteEnv (textBeforeFirstEq env) (textAfterFirstEq env)] ++
          ({ b with Env := post }).WriteBuild []) ∧
    (2 ≤ countEq env →
      b.WriteBuild f = ({ b with Env := pre ++ post }).WriteBuild f) := by
  constructor
  · intro h1 _
    rw [WriteBuild_around_entry b pre post env f hEnv, writeEnvEntry_one [] env h1]
    simp
  · intro h2
    have hskip : writeEnvEntry [] env = [] := writeEnvEntry_skip [] env (by omega)
    simp [WriteBuild_eq, hEnv, hskip]

/-- Witness for C4: `A=1` followed by `B=2` appends `WriteEnv(A,1)` first, and
`A=b=c` in front of `B=2` is skipped. -/
theorem C4_env_entry_split_witness :
    exampleBuild.WriteBuild [] =
      ({ exampleBuild with Env := [], Script := [] }).WriteBuild [] ++
        [Instr.WriteEnv (textBeforeFirstEq "A=1") (textAfterFirstEq "A=1")] ++
        ({ exampleBuild with Env := ["B=2"] }).WriteBuild [] ∧
    ({ exampleBuild with Env := ["A=b=c", "B=2"] }).WriteBuild [] =
      ({ exampleBuild with Env := [] ++ ["B=2"] }).WriteBuild [] :=
  ⟨(C4_env_entry_split exampleBuild [] ["B=2"] "A=1" [] rfl).1 (by decide) (by decide),
   (C4_env_entry_split { exampleBuild with Env := ["A=b=c", "B=2"] } [] ["B=2"] "A=b=c" []
      rfl).2 (by decide)⟩

/-- C5, as stated, fails: the entry `=value` has an empty key before its `=`, yet
compilation appends `WriteEnv("", "value")`, a binding whose key is empty. -/
theorem C5_counterexample :
    textBeforeFirstEq "=value" = "" ∧
    ({ exampleBuild with Env := ["=value"], Script := [] }).WriteBuild [] =
      [Instr.WriteEnv "" "value"] ∧
    ¬ (∀ k v, Instr.WriteEnv k v ∈
        ({ exampleBuild with Env := ["=value"], Script := [] }).WriteBuild [] → k ≠ "") := by
  refine ⟨by decide, by decide, ?_⟩
  intro h
  exact h "" "value" (by decide) rfl

/-- C5, amended: an entry with an empty key before its only `=` (such as
`=value`) appends exactly one `WriteEnv`, with the empty string as key and the
text after the `=` as value, in its place among the other entries. -/
theorem C5_empty_key_written (b : Build) (pre post : List String) (env : String)
    (f : Buildfile) (hEnv : b.Env = pre ++ env :: post)
    (h1 : countEq env = 1) (hkey : textBeforeFirstEq env = "") :
    b.WriteBuild f =
      ({ b with Env := pre, Script := [] }).WriteBuild f ++
        [Instr.WriteEnv "" (textAfterFirstEq env)] ++
        ({ b with Env := post }).WriteBuild [] := by
  rw [WriteBuild_around_entry b pre post env f hEnv, writeEnvEntry_one [] env h1, hkey]
  simp

/-- Witness for C5: `=value` between `A=1` and `B=2`. -/
theorem C5_empty_key_written_witness :
    ({ exampleBuild with Env := ["A=1", "=value", "B=2"] }).WriteBuild [] =
      [Instr.WriteEnv "A" "1", Instr.WriteEnv "" "value", Instr.WriteEnv "B" "2",
       Instr.WriteCmd "make build"] :=
  (C5_empty_key_written { exampleBuild with Env := ["A=1", "=value", "B=2"] }
    ["A=1"] ["B=2"] "=value" [] rfl (by decide) (by decide)).trans (by decide)

/-- C6: an env entry containing no `=` appends nothing, and deleting it from the
env list, at any position, leaves the result of build-only and of full
compilation unchanged; both are total functions, so compilation does not fail. -/
theorem C6_entry_without_eq_skipped (b : Build) (pre post : List String) (env : String)
    (f : Buildfile) (hEnv : b.Env = pre ++ env :: post) (hno : countEq env = 0) :
    writeEnvEntry f env = f ∧
    b.WriteBuild f = ({ b with Env := pre ++ post }).WriteBuild f ∧
    b.Write f = ({ b with Env := pre ++ post }).Write f := by
  have hskip : ∀ g, writeEnvEntry g env = g := fun g => writeEnvEntry_skip g env (by omega)
  have hWB : b.WriteBuild f = ({ b with Env := pre ++ post }).WriteBuild f := by
    simp [WriteBuild_eq, hEnv, hskip []]
  refine ⟨hskip f, hWB, ?_⟩
  simp only [Write_eq, hWB]

/-- Witness for C6: the entry `PATH` between `A=1` and `B=2`. -/
theorem C6_entry_without_eq_skipped_witness :
    countEq "PATH" = 0 ∧
    ({ exampleBuild with Env := ["A=1", "PATH", "B=2"] }).WriteBuild [] =
      [Instr.WriteEnv "A" "1", Instr.WriteEnv "B" "2", Instr.WriteCmd "make build"] :=
  ⟨by decide,
   (C6_entry_without_eq_skipped { exampleBuild with Env := ["A=1", "PATH", "B=2"] }
      ["A=1"] ["B=2"] "PATH" [] rfl (by decide)).2.1.trans (by decide)⟩

/-- C7: the command phase appends exactly one `WriteCmd` per script entry, in
manifest order, with the command unchanged: the result is what the manifest
without script yields followed by the script mapped to `WriteCmd`, and the
commands recorded in a fresh sink are the script list itself. -/
theorem C7_commands_are_script (b : Build) (f : Buildfile) :
    b.WriteBuild f =
      ({ b with Script := [] }).WriteBuild f ++ b.Script.map Instr.WriteCmd ∧
    commandsOf (b.WriteBuild []) = b.Script ∧
    (commandsOf (b.WriteBuild [])).length = b.Script.length := by
  have h : commandsOf (b.WriteBuild []) = b.Script := by
    rw [WriteBuild_eq, commandsOf_append, commandsOf_append, commandsOf_envPhase,
      commandsOf_map_WriteCmd]
    simp [commandsOf]
  refine ⟨by simp [WriteBuild_eq], h, by rw [h]⟩

/-- C8, as stated, fails: populate the example manifest with a publish and a
deploy extension that write nothing (and any notification); full compilation
then yields the same sequence as without them, which is a prefix but not a
strict one. -/
theorem C8_counterexample :
    exampleBuild.Publish = none ∧ exampleBuild.Deploy = none ∧
    exampleBuild.Notifications = none ∧
    ({ exampleBuild with Publish := some silentPublish, Deploy := some silentDeploy,
                         Notifications := some exampleNotification }).Write [] =
      exampleBuild.Write [] ∧
    ¬ StrictPrefix (exampleBuild.Write [])
      (({ exampleBuild with Publish := some silentPublish, Deploy := some silentDeploy,
                            Notifications := some exampleNotification }).Write []) := by
  refine ⟨rfl, rfl, rfl, by decide, ?_⟩
  intro h
  exact h.2 (by decide)

/-- C8, amended: a manifest with no deploy, publish or notifications compiles, in
full mode, to exactly the instructions derived from env and script, and that
sequence is a prefix, possibly the whole, of what full compilation yields for the
same manifest with the three fields populated, for every choice of extensions
whose `Write` only appends to the sink. -/
theorem C8_bare_manifest_prefix (b : Build) (p : Publish) (d : Deployment)
    (n : Notification) (f : Buildfile)
    (hP : b.Publish = none) (hD : b.Deploy = none) (_hN : b.Notifications = none)
    (hp : ∀ g, g <+: p.Write g) (hd : ∀ g, g <+: d.Write g) :
    b.Write f = b.WriteBuild f ∧
    b.Write f = f ++ b.Env.flatMap (writeEnvEntry []) ++ b.Script.map Instr.WriteCmd ∧
    b.Write f <+:
      ({ b with Publish := some p, Deploy := some d, Notifications := some n }).Write f := by
  have h1 : b.Write f = b.WriteBuild f := by
    simp [Write_eq, hP, hD]
  have h2 : ({ b with Publish := some p, Deploy := some d,
                      Notifications := some n }).Write f =
      d.Write (p.Write (b.WriteBuild f)) := by
    simp [Write_eq, WriteBuild_eq]
  refine ⟨h1, by rw [h1, WriteBuild_eq], ?_⟩
  rw [h1, h2]
  exact (hp _).trans (hd _)

/-- Witness for C8: the example manifest, populated with a publish extension
appending one command and a deploy extension appending two instructions. -/
theorem C8_bare_manifest_prefix_witness :
    exampleBuild.Write [] =
      [Instr.WriteEnv "A" "1", Instr.WriteEnv "B" "2", Instr.WriteCmd "make build"] ∧
    exampleBuild.Write [] <+:
      ({ exampleBuild with Publish := some examplePublish, Deploy := some exampleDeploy,
                           Notifications := some exampleNotification }).Write [] :=
  have h := C8_bare_manifest_prefix exampleBuild examplePublish exampleDeploy
    exampleNotification [] rfl rfl rfl
    (fun g => by simp [examplePublish, Buildfile.WriteCmd])
    (fun g => by simp [exampleDeploy, Buildfile.WriteCmd, Buildfile.WriteEnv])
  ⟨h.1.trans (by decide), h.2.2⟩

/-- C9: full compilation is build-only compilation, followed by the publish
extension when publish is present, followed by the deploy extension when deploy
is present; with both absent the two modes yield the same sequence. -/
theorem C9_Write_is_WriteBuild_then_extensions (b : Build) (p : Publish)
    (d : Deployment) (f : Buildfile) :
    b.Write f =
      (match b.Deploy with
        | some d => d.Write
        | none => id)
        ((match b.Publish with
          | some p => p.Write
          | none => id) (b.WriteBuild f)) ∧
    ({ b with Publish := some p, Deploy := some d }).Write f =
      d.Write (p.Write (b.WriteBuild f)) ∧
    ({ b with Publish := some p, Deploy := none }).Write f = p.Write (b.WriteBuild f) ∧
    ({ b with Publish := none, Deploy := some d }).Write f = d.Write (b.WriteBuild f) ∧
    ({ b with Publish := none, Deploy := none }).Write f = b.WriteBuild f ∧
    ({ b with Publish := none, Deploy := none }).Write f =
      ({ b with Publish := none, Deploy := none }).WriteBuild f := by
  refine ⟨Write_eq b f, ?_, ?_, ?_, ?_, ?_⟩ <;> simp [Write_eq, WriteBuild_eq]

/-- C10: compilation never uses the notifications field: for every manifest and
sink, `Write` and `WriteBuild` yield the same sequence whether the field is
absent or holds any notification extension, so nothing they yield depends on a
call of `Set`. -/
theorem C10_notifications_not_used (b : Build) (n : Option Notification)
    (f : Buildfile) :
    ({ b with Notifications := n }).Write f =
      ({ b with Notifications := none }).Write f ∧
    ({ b with Notifications := n }).WriteBuild f =
      ({ b with Notifications := none }).WriteBuild f := by
  constructor <;> simp [Write_eq, WriteBuild_eq]

end script

/-! ## Determinism and the parser entry points -/

namespace script

open buildfile

/-- C11: compilation is deterministic. Extensions being functions of the sink,
two compilations in the same mode from the same sink (in particular a fresh one)
of manifests that agree on env, script, publish and deploy (in particular of the
same manifest) yield identical instruction sequences. -/
theorem C11_compilation_deterministic (b₁ b₂ : Build) (f : Buildfile)
    (hEnv : b₁.Env = b₂.Env) (hScript : b₁.Script = b₂.Script)
    (hPublish : b₁.Publish = b₂.Publish) (hDeploy : b₁.Deploy = b₂.Deploy) :
    b₁.WriteBuild f = b₂.WriteBuild f ∧ b₁.Write f = b₂.Write f ∧
    b₁.WriteBuild [] = b₂.WriteBuild [] ∧ b₁.Write [] = b₂.Write [] := by
  have hWB : ∀ g, b₁.WriteBuild g = b₂.WriteBuild g := by
    intro g
    rw [WriteBuild_eq, WriteBuild_eq, hEnv, hScript]
  have hW : ∀ g, b₁.Write g = b₂.Write g := by
    intro g
    rw [Write_eq, Write_eq, hWB g, hPublish, hDeploy]
  exact ⟨hWB f, hW f, hWB [], hW []⟩

/-- Witness for C11: the populated example manifest, compiled twice into fresh
sinks, the second time under another name. -/
theorem C11_compilation_deterministic_witness :
    ({ exampleBuild with Publish := some examplePublish,
                         Deploy := some exampleDeploy }).Write [] =
      ({ exampleBuild with Name := "again", Publish := some examplePublish,
                           Deploy := some exampleDeploy }).Write [] ∧
    ({ exampleBuild with Publish := some examplePublish,
                         Deploy := some exampleDeploy }).Write [] =
      [Instr.WriteEnv "A" "1", Instr.WriteEnv "B" "2", Instr.WriteCmd "make build",
       Instr.WriteCmd "docker push",
       Instr.WriteEnv "TARGET" "prod", Instr.WriteCmd "git push deploy"] :=
  ⟨(C11_compilation_deterministic
      { exampleBuild with Publish := some examplePublish, Deploy := some exampleDeploy }
      { exampleBuild with Name := "again", Publish := some examplePublish,
                          Deploy := some exampleDeploy }
      [] rfl rfl rfl rfl).2.2.2,
   by decide⟩

/-- C12: `ParseBuildFile` reads the file and delegates to `ParseBuild`. When the
read fails with error `e` the result is no manifest together with `e`, whatever
the decoder is, so the decoder is not consulted; when the read succeeds the
result, manifest and error, is that of `ParseBuild` on the bytes read. -/
theorem C12_ParseBuildFile_delegates (readFile : String → Bytes × Option Error)
    (unmarshal : Bytes → Build → Build × Option Error) (filename : String) :
    (∀ e, (readFile filename).2 = some e →
      ParseBuildFile readFile unmarshal filename = (none, some e) ∧
      ∀ u, ParseBuildFile readFile u filename = (none, some e)) ∧
    ((readFile filename).2 = none →
      ParseBuildFile readFile unmarshal filename =
        ParseBuild unmarshal (readFile filename).1) := by
  constructor
  · intro e he
    have key : ∀ u, ParseBuildFile readFile u filename = (none, some e) := by
      intro u
      unfold ParseBuildFile
      cases hr : readFile filename with
      | mk data err =>
        rw [hr] at he
        simp only at he
        subst he
        rfl
    exact ⟨key unmarshal, key⟩
  · intro hnone
    unfold ParseBuildFile
    cases hr : readFile filename with
    | mk data err =>
      rw [hr] at hnone
      simp only at hnone
      subst hnone
      rfl

/-- Witness for C12: a file system holding only `.drone.yml`; reading
`missing.yml` fails, reading `.drone.yml` hands its bytes to `ParseBuild`. -/
theorem C12_ParseBuildFile_delegates_witness :
    ParseBuildFile exampleReadFile exampleUnmarshal "missing.yml" =
      (none, some { Message := "no such file or directory" }) ∧
    ParseBuildFile exampleReadFile exampleUnmarshal ".drone.yml" =
      ParseBuild exampleUnmarshal exampleDocument :=
  ⟨((C12_ParseBuildFile_delegates exampleReadFile exampleUnmarshal "missing.yml").1
      { Message := "no such file or directory" } (by decide)).1,
   (C12_ParseBuildFile_delegates exampleReadFile exampleUnmarshal ".drone.yml").2
      (by decide)⟩

end script

/-! ## Bindings recorded by the environment phase -/

namespace script

open buildfile

theorem bindingsOf_append (f g : Buildfile) :
    bindingsOf (f ++ g) = bindingsOf f ++ bindingsOf g := by
  simp [bindingsOf]

theorem bindingsOf_map_WriteCmd (cmds : List String) :
    bindingsOf (cmds.map Instr.WriteCmd) = [] := by
  induction cmds with
  | nil => simp [bindingsOf]
  | cons c cs ih =>
    simp only [bindingsOf] at ih
    simp [bindingsOf, ih]

theorem bindingsOf_envPhase (envs : List String) :
    bindingsOf (envs.flatMap (writeEnvEntry [])) =
      (envs.filter (fun e => decide (countEq e = 1))).map
        (fun e => (textBeforeFirstEq e, textAfterFirstEq e)) := by
  induction envs with
  | nil => simp [bindingsOf]
  | cons e es ih =>
    have hcons : bindingsOf ((e :: es).flatMap (writeEnvEntry [])) =
        bindingsOf (writeEnvEntry [] e) ++ bindingsOf (es.flatMap (writeEnvEntry [])) := by
      rw [List.flatMap_cons, bindingsOf_append]
    rw [hcons, ih]
    by_cases h : countEq e = 1
    · have he : bindingsOf (writeEnvEntry [] e) =
          [(textBeforeFirstEq e, textAfterFirstEq e)] := by
        simp [writeEnvEntry_one [] e h, bindingsOf]
      simp [he, h]
    · have he : bindingsOf (writeEnvEntry [] e) = [] := by
        simp [writeEnvEntry_skip [] e h, bindingsOf]
      simp [he, h]

/-- Build-only compilation of a manifest with the single env entry `env` and no
script: one binding when `env` has exactly one `=`, nothing otherwise. -/
theorem WriteBuild_single_entry (b : Build) (env : String) (f : Buildfile) :
    ({ b with Env := [env], Script := [] }).WriteBuild f =
      if countEq env = 1 then
        f ++ [Instr.WriteEnv (textBeforeFirstEq env) (textAfterFirstEq env)]
      else f := by
  by_cases h : countEq env = 1
  · simp [WriteBuild_eq, writeEnvEntry_one [] env h, h]
  · simp [WriteBuild_eq, writeEnvEntry_skip [] env h, h]

end script

/-! ## Claims, continued -/

namespace script

open buildfile

/-- C13: round trip through the parser. For bytes that denote a document with
`image: golang`, `script: [echo hi]` and no `env` key, `ParseBuild` succeeds: it
returns a manifest and no error; compiling that manifest in build-only mode into
a fresh sink yields exactly `WriteCmd("echo hi")`, with no `WriteEnv`. -/
theorem C13_parse_then_WriteBuild (format : Bytes → Option Document) (data : Bytes)
    (doc : Document) (hDoc : format data = some doc)
    (hImage : doc.image = some "golang") (hScript : doc.script = some ["echo hi"])
    (hEnv : doc.env = none) :
    ∃ m, ParseBuild (Unmarshal format) data = (some m, none) ∧
      m.Image = "golang" ∧
      m.WriteBuild [] = [Instr.WriteCmd "echo hi"] ∧
      bindingsOf (m.WriteBuild []) = [] ∧
      commandsOf (m.WriteBuild []) = ["echo hi"] := by
  refine ⟨(Unmarshal format data Build.zero).1, ?_, ?_, ?_⟩
  · simp [ParseBuild, Unmarshal, hDoc]
  · simp [Unmarshal, hDoc, hImage]
  · have hWB : (Unmarshal format data Build.zero).1.WriteBuild [] =
        [Instr.WriteCmd "echo hi"] := by
      simp [WriteBuild_eq, Unmarshal, hDoc, hScript, hEnv, Build.zero]
    rw [hWB]
    exact ⟨rfl, rfl, rfl⟩

/-- Witness for C13: the document `image: golang`, `script: [echo hi]` under a
grammar that reads it. -/
theorem C13_parse_then_WriteBuild_witness :
    ∃ m, ParseBuild (Unmarshal exampleFormat) exampleDocument = (some m, none) ∧
      m.Image = "golang" ∧
      m.WriteBuild [] = [Instr.WriteCmd "echo hi"] ∧
      bindingsOf (m.WriteBuild []) = [] ∧
      commandsOf (m.WriteBuild []) = ["echo hi"] :=
  C13_parse_then_WriteBuild exampleFormat exampleDocument exampleManifest
    (by simp [exampleFormat]) rfl rfl rfl

/-- C14: `WriteBuild` emits a `WriteEnv` for an env entry if and only if the
entry contains exactly one `=`; the key is then the text before the `=` and the
value the text after it, either possibly empty. Hence the bindings written are
those of the entries with exactly one `=`, in order, and their number is the
number of such entries. -/
theorem C14_WriteEnv_iff_exactly_one_eq (b : Build) (env : String) (f : Buildfile) :
    (({ b with Env := [env], Script := [] }).WriteBuild f =
      if countEq env = 1 then
        f ++ [Instr.WriteEnv (textBeforeFirstEq env) (textAfterFirstEq env)]
      else f) ∧
    ((∃ k v, Instr.WriteEnv k v ∈ ({ b with Env := [env], Script := [] }).WriteBuild []) ↔
      countEq env = 1) ∧
    bindingsOf (b.WriteBuild []) =
      (b.Env.filter (fun e => decide (countEq e = 1))).map
        (fun e => (textBeforeFirstEq e, textAfterFirstEq e)) ∧
    (bindingsOf (b.WriteBuild [])).length =
      b.Env.countP (fun e => decide (countEq e = 1)) := by
  have hb : bindingsOf (b.WriteBuild []) =
      (b.Env.filter (fun e => decide (countEq e = 1))).map
        (fun e => (textBeforeFirstEq e, textAfterFirstEq e)) := by
    rw [WriteBuild_eq, bindingsOf_append, bindingsOf_append, bindingsOf_envPhase,
      bindingsOf_map_WriteCmd]
    simp [bindingsOf]
  refine ⟨WriteBuild_single_entry b env f, ?_, hb, ?_⟩
  · rw [WriteBuild_single_entry b env []]
    by_cases h : countEq env = 1
    · simp [h]
    · simp [h]
  · rw [hb, List.length_map, List.countP_eq_length_filter]

/-- C15: compilation is append-only on the sink. For every manifest and every
sink holding `s`, `WriteBuild` leaves `s` as a prefix of the result, which is `s`
followed by what `WriteBuild` yields on an empty sink. For `Write`, `s` stays a
prefix when each present extension keeps its sink as a prefix, and the result is
`s` followed by what `Write` yields on an empty sink when each present extension
is append-only in that same sense: its result is its sink followed by what it
yields on an empty sink. -/
theorem C15_append_only (b : Build) (s : Buildfile) :
    (s <+: b.WriteBuild s ∧ b.WriteBuild s = s ++ b.WriteBuild []) ∧
    ((∀ p, b.Publish = some p → ∀ g, g <+: p.Write g) →
      (∀ d, b.Deploy = some d → ∀ g, g <+: d.Write g) →
      s <+: b.Write s) ∧
    ((∀ p, b.Publish = some p → ∀ g, p.Write g = g ++ p.Write []) →
      (∀ d, b.Deploy = some d → ∀ g, d.Write g = g ++ d.Write []) →
      s <+: b.Write s ∧ b.Write s = s ++ b.Write []) := by
  have hWB : b.WriteBuild s = s ++ b.WriteBuild [] := by
    rw [WriteBuild_eq, WriteBuild_eq]
    simp
  have hpre : s <+: b.WriteBuild s := by
    rw [hWB]
    exact List.prefix_append _ _
  refine ⟨⟨hpre, hWB⟩, ?_, ?_⟩
  · intro hp hd
    rw [Write_eq]
    cases hP : b.Publish with
    | none =>
      cases hD : b.Deploy with
      | none => exact hpre
      | some d => exact hpre.trans (hd d hD _)
    | some p =>
      cases hD : b.Deploy with
      | none => exact hpre.trans (hp p hP _)
      | some d => exact (hpre.trans (hp p hP _)).trans (hd d hD _)
  · intro hp hd
    have heq : b.Write s = s ++ b.Write [] := by
      rw [Write_eq, Write_eq, hWB]
      cases hP : b.Publish with
      | none =>
        cases hD : b.Deploy with
        | none => rfl
        | some d =>
          show d.Write (s ++ b.WriteBuild []) = s ++ d.Write (b.WriteBuild [])
          rw [hd d hD (s ++ b.WriteBuild []), hd d hD (b.WriteBuild [])]
          simp
      | some p =>
        cases hD : b.Deploy with
        | none =>
          show p.Write (s ++ b.WriteBuild []) = s ++ p.Write (b.WriteBuild [])
          rw [hp p hP (s ++ b.WriteBuild []), hp p hP (b.WriteBuild [])]
          simp
        | some d =>
          show d.Write (p.Write (s ++ b.WriteBuild [])) =
            s ++ d.Write (p.Write (b.WriteBuild []))
          rw [hp p hP (s ++ b.WriteBuild []), hp p hP (b.WriteBuild []),
            hd d hD (s ++ b.WriteBuild [] ++ p.Write []),
            hd d hD (b.WriteBuild [] ++ p.Write [])]
          simp
    refine ⟨?_, heq⟩
    rw [heq]
    exact List.prefix_append _ _

/-- Witness for C15: the populated example manifest compiled into a sink that
already holds one command. -/
theorem C15_append_only_witness :
    [Instr.WriteCmd "cd /src"] <+:
      ({ exampleBuild with Publish := some examplePublish,
                           Deploy := some exampleDeploy }).Write
        [Instr.WriteCmd "cd /src"] ∧
    ({ exampleBuild with Publish := some examplePublish,
                         Deploy := some exampleDeploy }).Write [Instr.WriteCmd "cd /src"] =
      [Instr.WriteCmd "cd /src"] ++
        ({ exampleBuild with Publish := some examplePublish,
                             Deploy := some exampleDeploy }).Write [] :=
  (C15_append_only
    { exampleBuild with Publish := some examplePublish, Deploy := some exampleDeploy }
    [Instr.WriteCmd "cd /src"]).2.2
    (fun p hp g => by
      cases hp
      simp [examplePublish, Buildfile.WriteCmd])
    (fun d hd g => by
      cases hd
      simp [exampleDeploy, Buildfile.WriteCmd, Buildfile.WriteEnv])

/-- An extension may keep its sink as a prefix and still append differently on
different sinks; the result of `Write` on `s` is then not `s` followed by the
result on an empty sink, though `s` remains a prefix of it. -/
theorem Write_sink_sensitive_extension :
    (∀ g, g <+: sinkSensitivePublish.Write g) ∧
    ({ Build.zero with Publish := some sinkSensitivePublish }).Write
        [Instr.WriteCmd "cd /src"] = [Instr.WriteCmd "cd /src"] ∧
    ({ Build.zero with Publish := some sinkSensitivePublish }).Write [] =
      [Instr.WriteCmd "docker push"] := by
  refine ⟨?_, by decide, by decide⟩
  intro g
  cases g with
  | nil => simp [sinkSensitivePublish, Buildfile.WriteCmd]
  | cons a t => simp [sinkSensitivePublish]

end script
